import Mathlib

/-!
# Verification of the glia-fab desktop backend
  (src/apps/glia-fab-desktop/src-tauri/src/main.rs)

Shallow embedding of the session/job orchestration core: the PTY session
registry and its command handlers (`pty_create`/`pty_write`/`pty_resize`/
`pty_kill`), the one-shot job runner (`job_start`), the per-session/job
Output Pump and Exit Watcher background loops, the slug sanitizer
(`sanitize_slug`), and the local file server's path resolution
(`safe_join`).

Modelling conventions:
* A session identifier (the `uuid::Uuid` value) is modelled as a `Nat`;
  `Uuid::parse_str` is an external library call and is passed in as an
  abstract `String → Option Nat` function.
* OS/library calls that can fail (`openpty`, `spawn_command`,
  `try_clone_reader`, `take_writer`, `Mutex::lock` poisoning,
  `write_all`, `resize`, filesystem operations) are driven by explicit
  boolean environment fields, one per call site in the source.
* Filesystem paths are strings (for the job runner) or segment lists
  (for `safe_join`, matching `PathBuf::push` of `/`-split components).
* `CommandResult<T> = Result<T, String>` errors are modelled by the
  inductive `PtyError`, one constructor per distinct error construction
  site in the source.
-/

/-- `PtySessionInfo` from the source: id, cwd and command label of a
session (the registry value's `info` field). -/
structure PtySessionInfo where
  id : String
  cwd : Option String
  command : Option String
deriving DecidableEq, Repr

/-- `PtySession`: a registry entry.  The `master`, `writer` and `child`
fields of the source are OS handles; their observable behaviour is
modelled through the per-call environments below, so only the data
part (`info`) is carried here. -/
structure PtySession where
  info : PtySessionInfo
deriving DecidableEq, Repr

/-- One constructor per distinct error-producing site of the PTY command
handlers in the source (`CommandResult` error strings):
`parseError` = `Uuid::parse_str(..).map_err(|e| e.to_string())`,
`lockPoisoned` = a `Mutex::lock` returning `Err` (poisoned),
`sessionNotFound` = the literal `"session not found"`,
`writeError` = `write_all(..).context("write to pty")` failing,
`resizeError` = `master.resize(..).context("resize pty")` failing,
`openPtyFailed`/`spawnFailed`/`cloneReaderFailed`/`takeWriterFailed` =
the fallible setup steps of `pty_create`. -/
inductive PtyError
  | parseError
  | lockPoisoned
  | sessionNotFound
  | writeError
  | resizeError
  | openPtyFailed
  | spawnFailed
  | cloneReaderFailed
  | takeWriterFailed
deriving DecidableEq, Repr

/-- The session registry: `HashMap<Uuid, Arc<PtySession>>` modelled as an
association list keyed by the `Nat` uuid. -/
abbrev Registry := List (Nat × PtySession)

/-- `sessions.get(&id).cloned()`. -/
def lookupSession (sessions : Registry) (id : Nat) : Option PtySession :=
  (sessions.find? (fun e => e.1 == id)).map (fun e => e.2)

/-- Environment of one `pty_write` invocation: whether the registry lock
and the session's writer lock are healthy, and whether the
`write_all` call succeeds.  (The trailing `writer.flush().ok()` of the
source discards its result, so flush has no observable outcome.) -/
structure WriteEnv where
  sessionsLockOk : Bool
  writerLockOk : Bool
  writeOk : Bool

/-- `pty_write` (main.rs:731-753): parse the uuid, look the session up
under the registry lock, fail with `"session not found"` if absent,
otherwise write the bytes under the writer lock. -/
def pty_write (parse : String → Option Nat) (sessions : Registry)
    (env : WriteEnv) (sessionId : String) (_data : String) :
    Except PtyError Unit :=
  match parse sessionId with
  | none => .error .parseError
  | some id =>
    if !env.sessionsLockOk then .error .lockPoisoned
    else
      match lookupSession sessions id with
      | none => .error .sessionNotFound
      | some _ =>
        if !env.writerLockOk then .error .lockPoisoned
        else if !env.writeOk then .error .writeError
        else .ok ()

/-- Environment of one `pty_resize` invocation. -/
structure ResizeEnv where
  sessionsLockOk : Bool
  masterLockOk : Bool
  resizeOk : Bool

/-- `pty_resize` (main.rs:764-790): parse the uuid, look the session up;
an absent session is a successful no-op (`return Ok(())`); otherwise
apply the new geometry to the master under its lock. -/
def pty_resize (parse : String → Option Nat) (sessions : Registry)
    (env : ResizeEnv) (sessionId : String) (_cols _rows : Nat) :
    Except PtyError Unit :=
  match parse sessionId with
  | none => .error .parseError
  | some id =>
    if !env.sessionsLockOk then .error .lockPoisoned
    else
      match lookupSession sessions id with
      | none => .ok ()
      | some _ =>
        if !env.masterLockOk then .error .lockPoisoned
        else if !env.resizeOk then .error .resizeError
        else .ok ()

/-- Environment of one `pty_kill` invocation. -/
structure KillEnv where
  sessionsLockOk : Bool
  childLockOk : Bool

/-- `pty_kill` (main.rs:799-817): parse the uuid, look the session up;
an absent session is a successful no-op; otherwise send the kill
signal (`child.kill().ok()` — its result is discarded).  The second
component records whether the termination signal was issued; the
handler never mutates the registry, which is why no registry is
returned. -/
def pty_kill (parse : String → Option Nat) (sessions : Registry)
    (env : KillEnv) (sessionId : String) :
    Except PtyError Unit × Bool :=
  match parse sessionId with
  | none => (.error .parseError, false)
  | some id =>
    if !env.sessionsLockOk then (.error .lockPoisoned, false)
    else
      match lookupSession sessions id with
      | none => (.ok (), false)
      | some _ =>
        if !env.childLockOk then (.error .lockPoisoned, false)
        else (.ok (), true)

/-- `PtyCreateParams` from the source. -/
structure PtyCreateParams where
  cwd : Option String
  cols : Option Nat
  rows : Option Nat

/-- Environment of one `pty_create` invocation: success of each fallible
setup step, plus the fresh uuid drawn by `Uuid::new_v4()`. -/
structure CreateEnv where
  openPtyOk : Bool
  spawnOk : Bool
  cloneReaderOk : Bool
  takeWriterOk : Bool
  sessionsLockOk : Bool
  newId : Nat

/-- `pty_create` (main.rs:606-721), synchronous part: open the pty pair,
spawn `zsh -l`, clone the reader, take the writer, build the session
and insert it into the registry, then return the id.  Every fallible
step precedes the insertion, so a failure returns the registry
unchanged.  (The two spawned background threads are modelled
separately as `sess_output_pump` / `sess_exit_loop`.) -/
def pty_create (env : CreateEnv) (params : PtyCreateParams)
    (sessions : Registry) : Except PtyError String × Registry :=
  if !env.openPtyOk then (.error .openPtyFailed, sessions)
  else if !env.spawnOk then (.error .spawnFailed, sessions)
  else if !env.cloneReaderOk then (.error .cloneReaderFailed, sessions)
  else if !env.takeWriterOk then (.error .takeWriterFailed, sessions)
  else
    let info : PtySessionInfo :=
      { id := toString env.newId, cwd := params.cwd, command := some "zsh" }
    if !env.sessionsLockOk then (.error .lockPoisoned, sessions)
    else (.ok (toString env.newId), (env.newId, ⟨info⟩) :: sessions)

/-!
## Slug sanitizer and run identifiers (job runner)
-/

/-- Rust `char::to_ascii_lowercase`. -/
def toAsciiLower (c : Char) : Char :=
  if 'A' ≤ c ∧ c ≤ 'Z' then Char.ofNat (c.toNat + 32) else c

/-- Rust `char::is_whitespace` (the Unicode `White_Space` property). -/
def rustIsWhitespace (c : Char) : Bool :=
  (0x9 ≤ c.toNat && c.toNat ≤ 0xD) || c.toNat == 0x20 || c.toNat == 0x85 ||
  c.toNat == 0xA0 || c.toNat == 0x1680 ||
  (0x2000 ≤ c.toNat && c.toNat ≤ 0x200A) ||
  c.toNat == 0x2028 || c.toNat == 0x2029 || c.toNat == 0x202F ||
  c.toNat == 0x205F || c.toNat == 0x3000

/-- Rust `char::is_ascii_alphanumeric`. -/
def isAsciiAlphanum (c : Char) : Bool :=
  ('a' ≤ c && c ≤ 'z') || ('A' ≤ c && c ≤ 'Z') || ('0' ≤ c && c ≤ '9')

/-- The `for c in input.chars()` loop of `sanitize_slug`
(main.rs:251-269): keep ascii alphanumerics (lower-cased) and `-`/`_`,
turn whitespace into `_`, drop everything else, and `break` once the
accumulated output reaches 32.  (Every pushed char is one byte, so the
Rust byte length `out.len()` equals the character count.) -/
def slugLoop : List Char → List Char → List Char
  | [], out => out
  | c :: rest, out =>
    let keep := isAsciiAlphanum c || c == '-' || c == '_'
    let out' :=
      if keep then out ++ [toAsciiLower c]
      else if rustIsWhitespace c then out ++ ['_']
      else out
    if 32 ≤ out'.length then out' else slugLoop rest out'

/-- `sanitize_slug` (main.rs:251-269). -/
def sanitize_slug (input : String) : String :=
  let out := slugLoop input.data []
  if out.isEmpty then "run" else String.mk out

/-- `runs_dir_for_project` (main.rs:247-249):
`PathBuf::from(project_root).join(".glia-fab/runs")`. -/
def runs_dir_for_project (projectRoot : String) : String :=
  projectRoot ++ "/.glia-fab/runs"

/-!
## Job runner (`job_start`)
-/

/-- `JobStartParams` from the source (`env` is the
`Option<HashMap<String,String>>` of caller overrides). -/
structure JobStartParams where
  projectRoot : String
  command : String
  label : Option String
  envVars : Option (List (String × String))

/-- `JobInfo`, the success payload of `job_start`. -/
structure JobInfo where
  jobId : String
  runId : String
  runDir : String
deriving DecidableEq, Repr

/-- Contents of files the job runner writes, as structured records (the
source serializes these to JSON; the field sets match the
`serde_json` maps built in `job_start` and its exit-watcher thread). -/
inductive FileData
  | runMeta (runId projectRoot command : String) (label : Option String)
      (startedMs : Nat) (envVars : List (String × String))
  | jobResult (jobId runId : String) (exitCode : Option Nat) (endedMs : Nat)
deriving DecidableEq, Repr

/-- On-disk state touched by the job runner: directories that exist and
files with their contents, both keyed by path string. -/
structure FsState where
  dirs : List String
  files : List (String × FileData)
deriving DecidableEq, Repr

/-- Environment of one `job_start` invocation: the uuid string drawn by
`Uuid::new_v4()` (always 36 chars in the source), the clock reading
`epoch_ms_now()`, and success of each fallible call, in source order. -/
structure JobEnv where
  jobId : String
  nowMs : Nat
  createRunsDirOk : Bool
  createRunDirOk : Bool
  writeMetaOk : Bool
  openPtyOk : Bool
  spawnOk : Bool
  cloneReaderOk : Bool

/-- `job_start` (main.rs:418-575), synchronous part.  Mirrors the source
order: derive slug and run id; `create_dir_all` the runs root, then
the run directory; write `run_meta.json`; open the pty; spawn
`zsh -lc <command>`; clone the reader; (spawn the pump and watcher
threads — modelled separately); return `JobInfo`.  Each failing step
returns its error with the filesystem state reached so far — there is
no cleanup of already-created directories or files.
`job_id.to_string()[..8]` is the first 8 chars of the 36-char uuid
string (`String.take 8`). -/
def job_start (env : JobEnv) (params : JobStartParams) (fs : FsState) :
    Except String JobInfo × FsState :=
  let slug := (params.label.map sanitize_slug).getD (sanitize_slug params.command)
  let runId :=
    "run_" ++ toString env.nowMs ++ "_" ++ slug ++ "_" ++ env.jobId.take 8
  let runsDir := runs_dir_for_project params.projectRoot
  if !env.createRunsDirOk then (.error "create runs dir failed", fs)
  else
    let fs := { fs with dirs := fs.dirs ++ [runsDir] }
    let runDir := runsDir ++ "/" ++ runId
    if !env.createRunDirOk then (.error "create run dir failed", fs)
    else
      let fs := { fs with dirs := fs.dirs ++ [runDir] }
      let metaPath := runDir ++ "/run_meta.json"
      if !env.writeMetaOk then (.error "write run_meta failed", fs)
      else
        let fs :=
          { fs with
            files := fs.files ++
              [(metaPath,
                .runMeta runId params.projectRoot params.command params.label
                  env.nowMs (params.envVars.getD []))] }
        if !env.openPtyOk then (.error "open pty failed", fs)
        else if !env.spawnOk then (.error "spawn failed", fs)
        else if !env.cloneReaderOk then (.error "clone reader failed", fs)
        else (.ok ⟨env.jobId, runId, runDir⟩, fs)

/-!
## Output Pump
-/

/-- One `reader.read(&mut buf)` outcome as seen by a pump loop:
a chunk of `n ≥ 1` bytes (already decoded by the permissive
`String::from_utf8_lossy`), end of stream (`Ok(0)`), or a read error.
-/
inductive ReadEv
  | chunk (data : String)
  | eof
  | readErr
deriving DecidableEq, Repr

/-- Observable actions of the job output-pump thread
(main.rs:509-536): appending to `terminal.log`, flushing it, and
emitting a `job_output` event. -/
inductive PumpAct
  | append (data : String)
  | flushLog
  | publishOut (data : String)
deriving DecidableEq, Repr

/-- The job output-pump loop (main.rs:509-536): read until `Ok(0)` or a
read error; for each chunk, if the log file opened successfully
(`logOpen` — the source keeps `Option<File>` from
`OpenOptions::open(..).ok()`), append the chunk and flush, then emit
the `job_output` event.  Any reads after the terminating one never
happen; an exhausted input list means the loop is still blocked in
`read`. -/
def job_output_pump : List ReadEv → Bool → List PumpAct
  | [], _ => []
  | .eof :: _, _ => []
  | .readErr :: _, _ => []
  | .chunk d :: rest, logOpen =>
    (if logOpen then [.append d, .flushLog] else []) ++
      [.publishOut d] ++ job_output_pump rest logOpen

/-- The interactive-session output-pump thread (main.rs:671-685): same
loop without any log file — each chunk is only emitted as a
`pty_output` event. -/
def sess_output_pump : List ReadEv → List PumpAct
  | [] => []
  | .eof :: _ => []
  | .readErr :: _ => []
  | .chunk d :: rest => .publishOut d :: sess_output_pump rest

/-- Transcript bytes on disk after a prefix of the pump's actions: the
chronological concatenation of the `append`ed chunks (the source
appends with `write_all` + `flush` to an append-mode file). -/
def diskContent : List PumpAct → String
  | [] => ""
  | .append d :: tr => d ++ diskContent tr
  | _ :: tr => diskContent tr

/-- Bytes published live after a prefix of the pump's actions. -/
def publishedContent : List PumpAct → String
  | [] => ""
  | .publishOut d :: tr => d ++ publishedContent tr
  | _ :: tr => publishedContent tr

/-- The chunks a pump loop actually processes: the reads before the
first `eof`/`readErr`. -/
def pumpChunks : List ReadEv → List String
  | [] => []
  | .eof :: _ => []
  | .readErr :: _ => []
  | .chunk d :: rest => d :: pumpChunks rest

/-!
## Exit Watcher
-/

/-- One `child.try_wait()` outcome: `Ok(Some(status))` with its
`exit_code()`, `Ok(None)` (still running), or `Err(_)`. -/
inductive PollRes
  | exited (code : Nat)
  | stillRunning
  | pollErr
deriving DecidableEq, Repr

/-- The job exit-watcher poll loop (main.rs:541-550):
`Ok(Some(s))` breaks with `Some(s.exit_code())`, `Ok(None)` sleeps
120ms and polls again, `Err(_)` breaks with `None`.  `none` means the
given poll outcomes were exhausted with the loop still running. -/
def job_exit_loop : List PollRes → Option (Option Nat)
  | [] => none
  | .exited c :: _ => some (some c)
  | .stillRunning :: rest => job_exit_loop rest
  | .pollErr :: _ => some none

/-- One iteration's view in the session exit watcher: acquiring
`session.child.lock()` can itself fail (poisoned), which breaks with
`None` before any poll. -/
inductive SessPoll
  | lockFail
  | poll (r : PollRes)
deriving DecidableEq, Repr

/-- The session exit-watcher poll loop (main.rs:690-706): lock the child
(`Err` breaks with `None`), `try_wait` as in the job loop, sleeping
120ms between `Ok(None)` polls. -/
def sess_exit_loop : List SessPoll → Option (Option Nat)
  | [] => none
  | .lockFail :: _ => some none
  | .poll (.exited c) :: _ => some (some c)
  | .poll .stillRunning :: rest => sess_exit_loop rest
  | .poll .pollErr :: _ => some none

/-- Observable finalization actions of the session exit watcher. -/
inductive SessWatchAct
  | removeSession (id : Nat)
  | publishPtyExit (id : Nat) (exitCode : Option Nat)
deriving DecidableEq, Repr

/-- The session exit-watcher thread (main.rs:689-718) after its poll
loop ends: remove the session from the registry (skipped only if the
registry lock is poisoned — the `if let Ok(..)` guard), then emit the
`pty_exit` event.  An unfinished loop produces no actions yet. -/
def sess_exit_watcher (id : Nat) (polls : List SessPoll)
    (removeLockOk : Bool) : List SessWatchAct :=
  match sess_exit_loop polls with
  | none => []
  | some ec =>
    (if removeLockOk then [.removeSession id] else []) ++ [.publishPtyExit id ec]

/-- Observable finalization actions of the job exit watcher. -/
inductive JobWatchAct
  | writeResult (exitCode : Option Nat) (endedMs : Nat)
  | publishJobExit (exitCode : Option Nat)
deriving DecidableEq, Repr

/-- The job exit-watcher thread (main.rs:541-568) after its poll loop
ends: write `job_result.json` (failure ignored — `let _ = fs::write`),
then emit the `job_exit` event. -/
def job_exit_watcher (polls : List PollRes) (endedMs : Nat) :
    List JobWatchAct :=
  match job_exit_loop polls with
  | none => []
  | some ec => [.writeResult ec endedMs, .publishJobExit ec]

/-!
## Local file server path resolution (`safe_join`)
-/

/-- The `for part in rel.split('/')` loop of `safe_join`
(main.rs:49-59): skip empty and `"."` components, reject `".."`
(`return Err(anyhow!("path traversal blocked"))`), and `out.push(part)`
everything else.  Paths are segment lists; `PathBuf::push` of a
`/`-free non-empty component appends a segment. -/
def safe_join_loop : List String → List String → Except String (List String)
  | out, [] => .ok out
  | out, part :: rest =>
    if part.isEmpty || part == "." then safe_join_loop out rest
    else if part == ".." then .error "path traversal blocked"
    else safe_join_loop (out ++ [part]) rest

/-- Rust `str::split` with a single-character separator, over the
character list (structurally recursive so that concrete requests
evaluate).  Like Rust's `split`, adjacent separators and separators at
either end yield empty pieces, and the empty input yields one empty
piece. -/
def splitChar (sep : Char) : List Char → List (List Char)
  | [] => [[]]
  | c :: rest =>
    match splitChar sep rest with
    | [] => [[]]
    | cur :: out => if c == sep then [] :: cur :: out else (c :: cur) :: out

/-- The effective relative path of `safe_join` (main.rs:43-47): the
request before any `?` (`split('?').next()`), leading `/`s stripped
(`trim_start_matches('/')`), with `index.html` appended when empty or
ending in `/`. -/
def effectiveRel (requestedPath : String) : List Char :=
  let path := requestedPath.data.takeWhile (fun c => !(c == '?'))
  let rel := path.dropWhile (fun c => c == '/')
  if rel.isEmpty || rel.getLast? == some '/' then rel ++ "index.html".data
  else rel

/-- The `/`-split components of the effective relative path
(`rel.split('/')` in main.rs:50). -/
def relParts (requestedPath : String) : List String :=
  (splitChar '/' (effectiveRel requestedPath)).map String.mk

/-- `safe_join` (main.rs:42-60). -/
def safe_join (root : List String) (requestedPath : String) :
    Except String (List String) :=
  safe_join_loop root (relParts requestedPath)

/-- The request-serving tail of `start_local_server` (main.rs:138-171)
for a GET once a root is configured: a `safe_join` error answers 403
Forbidden; a resolved path that is not a file answers 404; a failed
`fs::read` answers 500; otherwise 200.  `isFile`/`readOk` stand for
the filesystem probes on the resolved path. -/
def serve_request (root : List String) (path : String)
    (isFile : List String → Bool) (readOk : Bool) : Nat :=
  match safe_join root path with
  | .error _ => 403
  | .ok p => if !isFile p then 404 else if !readOk then 500 else 200

/-!
## Registry lifecycle transition system (sessions)

The concurrent interleaving of the command handlers and each session's
exit-watcher thread, over the shared registry.  Watcher progress is a
per-id phase recording the thread's position in main.rs:689-718:
`polling` (in the try_wait loop), `exitedPh ec` (loop broken with
`exit_code = ec`), `removedPh ec` (after `sessions.remove(&id)`), and
`donePh` (after emitting `pty_exit`).  `poisoned` models whether the
registry mutex has been poisoned; no thread of the program panics while
holding it, so no transition sets it. -/

/-- Watcher phase of one session id. -/
inductive Phase
  | absentPh
  | polling
  | exitedPh (ec : Option Nat)
  | removedPh (ec : Option Nat)
  | donePh
deriving DecidableEq, Repr

/-- Whole-system state: the registry, each id's watcher phase, the ids
ever drawn by `Uuid::new_v4()` (drawn ids are never redrawn), and
registry-mutex poisoning. -/
structure Sys where
  registry : Registry
  phase : Nat → Phase
  used : List Nat
  poisoned : Bool

/-- Pointwise phase update. -/
def setPhase (f : Nat → Phase) (id : Nat) (p : Phase) : Nat → Phase :=
  fun j => if j = id then p else f j

/-- Action labels of the transition system. -/
inductive Act
  | createA (id : Nat) (session : PtySession)
  | writeA (id : Nat)
  | resizeA (id : Nat)
  | killSignal (id : Nat)
  | killNoop
  | listA
  | pollRunningA (id : Nat)
  | pollEndA (id : Nat) (ec : Option Nat)
  | removeA (id : Nat) (ec : Option Nat)
  | removeSkippedA (id : Nat) (ec : Option Nat)
  | publishExitA (id : Nat) (ec : Option Nat)
deriving DecidableEq, Repr

/-- One interleaved step.  Command steps act atomically under the
registry lock exactly as the handlers do: `pty_create` inserts
(main.rs:661-667, with a uuid never drawn before), `pty_write` /
`pty_resize` / `pty_list` only read the map, `pty_kill` reads the map
and signals the child without touching the map (main.rs:799-817).
Watcher steps follow main.rs:689-718: the poll loop breaks to
`exitedPh ec`, then `sessions.remove(&id)` (or skips it if the lock is
poisoned), then the `pty_exit` emission. -/
inductive Step : Sys → Act → Sys → Prop
  | createA (s : Sys) (id : Nat) (sess : PtySession) (hfresh : id ∉ s.used) :
      Step s (.createA id sess)
        { registry := (id, sess) :: s.registry,
          phase := setPhase s.phase id .polling,
          used := id :: s.used,
          poisoned := s.poisoned }
  | writeA (s : Sys) (id : Nat) : Step s (.writeA id) s
  | resizeA (s : Sys) (id : Nat) : Step s (.resizeA id) s
  | listA (s : Sys) : Step s .listA s
  | killSignal (s : Sys) (id : Nat)
      (hpresent : (lookupSession s.registry id).isSome) :
      Step s (.killSignal id) s
  | killNoop (s : Sys) : Step s .killNoop s
  | pollRunningA (s : Sys) (id : Nat) (h : s.phase id = .polling) :
      Step s (.pollRunningA id) s
  | pollEndA (s : Sys) (id : Nat) (ec : Option Nat)
      (h : s.phase id = .polling) :
      Step s (.pollEndA id ec)
        { s with phase := setPhase s.phase id (.exitedPh ec) }
  | removeA (s : Sys) (id : Nat) (ec : Option Nat)
      (h : s.phase id = .exitedPh ec) (hp : s.poisoned = false) :
      Step s (.removeA id ec)
        { s with registry := s.registry.filter (fun e => e.1 ≠ id),
                 phase := setPhase s.phase id (.removedPh ec) }
  | removeSkippedA (s : Sys) (id : Nat) (ec : Option Nat)
      (h : s.phase id = .exitedPh ec) (hp : s.poisoned = true) :
      Step s (.removeSkippedA id ec)
        { s with phase := setPhase s.phase id (.removedPh ec) }
  | publishExitA (s : Sys) (id : Nat) (ec : Option Nat)
      (h : s.phase id = .removedPh ec) :
      Step s (.publishExitA id ec)
        { s with phase := setPhase s.phase id .donePh }

/-- Multi-step execution producing the trace `tr`. -/
inductive Steps : Sys → List Act → Sys → Prop
  | refl (s : Sys) : Steps s [] s
  | cons {s m s' : Sys} {a : Act} {tr : List Act} :
      Step s a m → Steps m tr s' → Steps s (a :: tr) s'

/-- The initial state: empty registry, no watcher anywhere, no ids
drawn, mutex healthy. -/
def initSys : Sys :=
  { registry := [], phase := fun _ => .absentPh, used := [], poisoned := false }

/-- Reachability from program start. -/
def Reach (tr : List Act) (s : Sys) : Prop := Steps initSys tr s

/-- Number of registry removals for `id` in a trace. -/
def removesFor (id : Nat) (tr : List Act) : Nat :=
  tr.countP (fun a => match a with | .removeA i _ => i == id | _ => false)

/-- Number of `pty_exit` publications for `id` in a trace. -/
def publishesFor (id : Nat) (tr : List Act) : Nat :=
  tr.countP (fun a => match a with | .publishExitA i _ => i == id | _ => false)

/-- How many removals a phase has consumed. -/
def rankRemove : Phase → Nat
  | .absentPh => 0
  | .polling => 0
  | .exitedPh _ => 0
  | .removedPh _ => 1
  | .donePh => 1

/-- How many exit publications a phase has consumed. -/
def rankPublish : Phase → Nat
  | .donePh => 1
  | _ => 0

/-!
## Auxiliary definitions for stating the claims
-/

/-- The per-character mapping `sanitize_slug` applies before its length
cap: ascii alphanumerics and `-`/`_` are kept lower-cased, whitespace
becomes `_`, everything else is dropped. -/
def slugCharSpec (c : Char) : Option Char :=
  if isAsciiAlphanum c || c == '-' || c == '_' then some (toAsciiLower c)
  else if rustIsWhitespace c then some '_'
  else none

/-- Modelled from the spec's wording for the slug derivation
("lower-cased, non-alphanumeric collapsed to separators"): each
alphanumeric input character becomes its lower-cased self, and each
maximal non-empty run of non-alphanumeric characters becomes a single
non-alphanumeric separator character; the result is then length-capped.
Used only to compare that wording against `sanitize_slug`. -/
inductive ClaimSlug : List Char → List Char → Prop
  | nil : ClaimSlug [] []
  | alnum (c : Char) (cs out : List Char) (h : isAsciiAlphanum c = true)
      (ht : ClaimSlug cs out) : ClaimSlug (c :: cs) (toAsciiLower c :: out)
  | sep (run : List Char) (d : Char) (cs out : List Char)
      (hne : run ≠ []) (hrun : ∀ c ∈ run, isAsciiAlphanum c = false)
      (hd : isAsciiAlphanum d = false) (ht : ClaimSlug cs out) :
      ClaimSlug (run ++ cs) (d :: out)

/-- Phases in which a session's watcher thread may not remove the
registry entry any more (or yet): invariant helper. -/
def PhaseUsedInv (s : Sys) : Prop :=
  ∀ id, s.phase id ≠ .absentPh → id ∈ s.used

/-- A concrete session value for witness executions. -/
def sessEx : PtySession := ⟨⟨"0", none, some "zsh"⟩⟩

/-- A concrete full lifecycle trace of one session: create, exit
detection, registry removal, exit publication. -/
def traceEx : List Act :=
  [.createA 0 sessEx, .pollEndA 0 none, .removeA 0 none, .publishExitA 0 none]

/-- A concrete state whose watcher has detected exit code 7 for
session 0. -/
def sysExited : Sys :=
  { registry := [(0, sessEx)], phase := fun _ => .exitedPh (some 7),
    used := [0], poisoned := false }

/-- The run identifier `job_start` derives:
`format!("run_{}_{}_{}", now_ms, slug, job_id.to_string()[..8])`. -/
def job_run_id (env : JobEnv) (params : JobStartParams) : String :=
  "run_" ++ toString env.nowMs ++ "_" ++
    ((params.label.map sanitize_slug).getD (sanitize_slug params.command)) ++
    "_" ++ env.jobId.take 8

/-!
## Theorems
-/

example : sanitize_slug "Hello World!" = "hello_world" := by decide
example : sanitize_slug "a.b" = "ab" := by decide
example : sanitize_slug "!!!" = "run" := by decide

/-- C1: for every session identifier that parses to a uuid not present
in the registry, `pty_resize` and `pty_kill` succeed as no-ops (and
`pty_kill` sends no signal), while `pty_write` fails with the
`"session not found"` error; no other failure occurs on an absent
identifier (given healthy registry locks). -/
theorem C1_absent_id_noop_or_notfound
    (parse : String → Option Nat) (sessions : Registry)
    (wenv : WriteEnv) (renv : ResizeEnv) (kenv : KillEnv)
    (sid data : String) (cols rows id : Nat)
    (hparse : parse sid = some id)
    (habsent : lookupSession sessions id = none)
    (hw : wenv.sessionsLockOk = true)
    (hr : renv.sessionsLockOk = true)
    (hk : kenv.sessionsLockOk = true) :
    pty_write parse sessions wenv sid data = .error .sessionNotFound ∧
    pty_resize parse sessions renv sid cols rows = .ok () ∧
    pty_kill parse sessions kenv sid = (.ok (), false) := by
  refine ⟨?_, ?_, ?_⟩ <;>
    simp [pty_write, pty_resize, pty_kill, hparse, habsent, hw, hr, hk]

theorem C1_absent_id_noop_or_notfound_witness :
    pty_write (fun _ => some 0) [] ⟨true, true, true⟩ "sid" "d" =
      .error .sessionNotFound ∧
    pty_resize (fun _ => some 0) [] ⟨true, true, true⟩ "sid" 80 24 = .ok () ∧
    pty_kill (fun _ => some 0) [] ⟨true, true⟩ "sid" = (.ok (), false) :=
  C1_absent_id_noop_or_notfound (fun _ => some 0) [] ⟨true, true, true⟩
    ⟨true, true, true⟩ ⟨true, true⟩ "sid" "d" 80 24 0 rfl rfl rfl rfl rfl

/-- C10: for every session-id string the uuid parser rejects, all three
of `pty_write`, `pty_resize`, `pty_kill` fail with the parse error —
they never reach the absent-session treatment (`NotFound` for write,
no-op success for resize/kill), which therefore applies only to
well-formed identifiers. -/
theorem C10_malformed_id_is_parse_error
    (parse : String → Option Nat) (sessions : Registry)
    (wenv : WriteEnv) (renv : ResizeEnv) (kenv : KillEnv)
    (sid data : String) (cols rows : Nat)
    (hparse : parse sid = none) :
    pty_write parse sessions wenv sid data = .error .parseError ∧
    pty_resize parse sessions renv sid cols rows = .error .parseError ∧
    pty_kill parse sessions kenv sid = (.error .parseError, false) := by
  refine ⟨?_, ?_, ?_⟩ <;> simp [pty_write, pty_resize, pty_kill, hparse]

theorem C10_malformed_id_is_parse_error_witness :
    pty_write (fun _ => none) [] ⟨true, true, true⟩ "oops" "d" =
      .error .parseError ∧
    pty_resize (fun _ => none) [] ⟨true, true, true⟩ "oops" 80 24 =
      .error .parseError ∧
    pty_kill (fun _ => none) [] ⟨true, true⟩ "oops" =
      (.error .parseError, false) :=
  C10_malformed_id_is_parse_error (fun _ => none) [] ⟨true, true, true⟩
    ⟨true, true, true⟩ ⟨true, true⟩ "oops" "d" 80 24 rfl

/-- C5: whenever `pty_create` fails — pty allocation, process spawn,
reader cloning, writer takeover, or a poisoned registry lock — the
session registry is returned unchanged: the insertion happens only
after every fallible step has succeeded. -/
theorem C5_create_failure_leaves_registry_unchanged
    (env : CreateEnv) (params : PtyCreateParams) (sessions : Registry)
    (e : PtyError)
    (h : (pty_create env params sessions).1 = .error e) :
    (pty_create env params sessions).2 = sessions := by
  unfold pty_create at h ⊢
  cases h1 : env.openPtyOk <;> cases h2 : env.spawnOk <;>
    cases h3 : env.cloneReaderOk <;> cases h4 : env.takeWriterOk <;>
    cases h5 : env.sessionsLockOk <;> simp_all

theorem C5_create_failure_leaves_registry_unchanged_witness :
    (pty_create ⟨false, true, true, true, true, 0⟩ ⟨none, none, none⟩
      [(3, sessEx)]).2 = [(3, sessEx)] :=
  C5_create_failure_leaves_registry_unchanged
    ⟨false, true, true, true, true, 0⟩ ⟨none, none, none⟩ [(3, sessEx)]
    .openPtyFailed rfl

/-- A `".."` component anywhere in the split path makes the
`safe_join` loop fail. -/
theorem safe_join_loop_dotdot (parts : List String) :
    ∀ out, ".." ∈ parts → ∃ msg, safe_join_loop out parts = .error msg := by
  induction parts with
  | nil => intro out h; cases h
  | cons part rest ih =>
    intro out h
    by_cases hskip : part.isEmpty || part == "."
    · have hne : part ≠ ".." := by
        intro hc; subst hc; exact absurd hskip (by decide)
      have hmem : ".." ∈ rest := by
        rcases List.mem_cons.mp h with h' | h'
        · exact absurd h'.symm hne
        · exact h'
      simpa [safe_join_loop, hskip] using ih out hmem
    · by_cases hdd : part == ".."
      · exact ⟨"path traversal blocked", by simp [safe_join_loop, hskip, hdd]⟩
      · have hne : part ≠ ".." := by simpa using hdd
        have hmem : ".." ∈ rest := by
          rcases List.mem_cons.mp h with h' | h'
          · exact absurd h'.symm hne
          · exact h'
        simpa [safe_join_loop, hskip, hdd] using ih (out ++ [part]) hmem

/-- A successful `safe_join` loop only appends non-empty, non-`"."`,
non-`".."` components to the accumulated path. -/
theorem safe_join_loop_ok (parts : List String) :
    ∀ out p, safe_join_loop out parts = .ok p →
      out <+: p ∧ ∀ x ∈ p.drop out.length, x ≠ ".." ∧ x ≠ "" ∧ x ≠ "." := by
  induction parts with
  | nil =>
    intro out p h
    simp only [safe_join_loop] at h
    cases h
    exact ⟨List.prefix_refl _, by simp⟩
  | cons part rest ih =>
    intro out p h
    by_cases hskip : part.isEmpty || part == "."
    · simp only [safe_join_loop, hskip, if_pos] at h
      exact ih out p h
    · by_cases hdd : part == ".."
      · simp [safe_join_loop, hskip, hdd] at h
      · simp only [safe_join_loop, hskip, hdd] at h
        simp only [Bool.false_eq_true, if_false] at h
        obtain ⟨hpre, hrest⟩ := ih (out ++ [part]) p h
        obtain ⟨t, ht⟩ := hpre
        have hp : p = out ++ part :: t := by
          rw [← ht]; simp
        refine ⟨⟨part :: t, hp.symm⟩, ?_⟩
        have hdrop : p.drop out.length = part :: t := by
          rw [hp]; exact List.drop_left out (part :: t)
        rw [hdrop]
        intro x hx
        rcases List.mem_cons.mp hx with hxp | hxt
        · subst hxp
          refine ⟨by simpa using hdd, ?_, ?_⟩
          · intro hc; subst hc; exact absurd hskip (by decide)
          · intro hc; subst hc; exact absurd hskip (by decide)
        · have hp' : p = (out ++ [part]) ++ t := by rw [hp]; simp
          have hdrop' : p.drop (out ++ [part]).length = t := by
            rw [hp']; exact List.drop_left (out ++ [part]) t
          exact hrest x (by rw [hdrop']; exact hxt)

/-- C9: the file server's path resolution rejects every request whose
effective relative path contains a `".."` segment — `serve_request`
answers 403 Forbidden — and whenever `safe_join` succeeds, the
resolved path is the configured root extended only with non-empty,
non-`"."`, non-`".."` segments, so it never lies outside the root. -/
theorem C9_no_traversal_outside_root :
    (∀ (root : List String) (req : String),
        ".." ∈ relParts req →
        ∀ (isFile : List String → Bool) (readOk : Bool),
          serve_request root req isFile readOk = 403) ∧
    (∀ (root : List String) (req : String) (p : List String),
        safe_join root req = .ok p →
        root <+: p ∧ ∀ x ∈ p.drop root.length, x ≠ ".." ∧ x ≠ "" ∧ x ≠ ".") := by
  constructor
  · intro root req hmem isFile readOk
    obtain ⟨msg, hmsg⟩ := safe_join_loop_dotdot _ root hmem
    simp [serve_request, safe_join, hmsg]
  · intro root req p h
    exact safe_join_loop_ok _ root p h

theorem C9_no_traversal_outside_root_witness :
    serve_request ["r"] "/../../etc/passwd" (fun _ => true) true = 403 ∧
    (["r"] <+: ["r", "a", "b.html"] ∧
      ∀ x ∈ (["r", "a", "b.html"] : List String).drop 1,
        x ≠ ".." ∧ x ≠ "" ∧ x ≠ ".") := by
  constructor
  · exact C9_no_traversal_outside_root.1 ["r"] "/../../etc/passwd"
      (by decide) (fun _ => true) true
  · exact C9_no_traversal_outside_root.2 ["r"] "/a/b.html"
      ["r", "a", "b.html"] rfl

/-- One step of the slug loop, expressed through `slugCharSpec`. -/
theorem slugLoop_cons (c : Char) (rest out : List Char) :
    slugLoop (c :: rest) out =
      (let out' := match slugCharSpec c with
        | some d => out ++ [d]
        | none => out
      if 32 ≤ out'.length then out' else slugLoop rest out') := by
  cases hkeep : (isAsciiAlphanum c || c == '-' || c == '_')
  · cases hws : rustIsWhitespace c
    · simp [slugLoop, slugCharSpec, hkeep, hws]
    · simp [slugLoop, slugCharSpec, hkeep, hws]
  · simp [slugLoop, slugCharSpec, hkeep]

/-- The slug accumulation loop equals per-character `filterMap` followed
by truncation at the 32-byte cap. -/
theorem slugLoop_eq (cs : List Char) :
    ∀ out : List Char, out.length < 32 →
      slugLoop cs out = out ++ (cs.filterMap slugCharSpec).take (32 - out.length) := by
  induction cs with
  | nil => intro out h; simp [slugLoop]
  | cons c rest ih =>
    intro out h
    rw [slugLoop_cons]
    cases hspec : slugCharSpec c with
    | none =>
      simp only [hspec]
      rw [if_neg (by omega)]
      rw [ih out h, List.filterMap_cons, hspec]
    | some d =>
      simp only [hspec]
      rcases eq_or_ne out.length 31 with h31 | h31
      · rw [if_pos (by simp [h31])]
        rw [List.filterMap_cons, hspec, h31]
        simp
      · rw [if_neg (by simp; omega)]
        rw [ih (out ++ [d]) (by simp; omega), List.filterMap_cons, hspec]
        have harith : 32 - out.length = (32 - (out ++ [d]).length) + 1 := by
          simp; omega
        rw [harith, List.take_succ_cons]
        simp

/-- A claim-style slug of the empty input is empty. -/
theorem claimSlug_inv_nil (inp out : List Char) (h : ClaimSlug inp out)
    (heq : inp = []) : out = [] := by
  cases h with
  | nil => rfl
  | alnum c cs out' hc ht => simp at heq
  | sep run d cs out' hne hrun hd ht =>
    exact absurd (List.append_eq_nil.mp heq).1 hne

/-- A claim-style slug of `"b"` has one character. -/
theorem claimSlug_inv_b (inp out : List Char) (h : ClaimSlug inp out)
    (heq : inp = ['b']) : out.length = 1 := by
  cases h with
  | nil => simp at heq
  | alnum c cs out' hc ht =>
    obtain ⟨hc1, hc2⟩ : c = 'b' ∧ cs = [] := by simpa using heq
    rw [claimSlug_inv_nil cs out' ht hc2]
    rfl
  | sep run d cs out' hne hrun hd ht =>
    cases run with
    | nil => exact absurd rfl hne
    | cons r0 rt =>
      obtain ⟨hr0, -⟩ : r0 = 'b' ∧ rt ++ cs = [] := by simpa using heq
      subst hr0
      exact absurd (hrun 'b' (by simp)) (by decide)

/-- A claim-style slug of `".b"` has two characters. -/
theorem claimSlug_inv_dotb (inp out : List Char) (h : ClaimSlug inp out)
    (heq : inp = ['.', 'b']) : out.length = 2 := by
  cases h with
  | nil => simp at heq
  | alnum c cs out' hc ht =>
    obtain ⟨hc1, -⟩ : c = '.' ∧ cs = ['b'] := by simpa using heq
    subst hc1
    exact absurd hc (by decide)
  | sep run d cs out' hne hrun hd ht =>
    cases run with
    | nil => exact absurd rfl hne
    | cons r0 rt =>
      obtain ⟨hr0, hrest⟩ : r0 = '.' ∧ rt ++ cs = ['b'] := by simpa using heq
      cases rt with
      | nil =>
        have hcs : cs = ['b'] := by simpa using hrest
        have := claimSlug_inv_b cs out' ht hcs
        simp [this]
      | cons r1 rt2 =>
        obtain ⟨hr1, -⟩ : r1 = 'b' ∧ rt2 ++ cs = [] := by simpa using hrest
        subst hr1
        exact absurd (hrun 'b' (by simp)) (by decide)

/-- A claim-style slug of `"a.b"` has three characters. -/
theorem claimSlug_inv_adotb (inp out : List Char) (h : ClaimSlug inp out)
    (heq : inp = ['a', '.', 'b']) : out.length = 3 := by
  cases h with
  | nil => simp at heq
  | alnum c cs out' hc ht =>
    obtain ⟨hc1, hc2⟩ : c = 'a' ∧ cs = ['.', 'b'] := by simpa using heq
    have := claimSlug_inv_dotb cs out' ht hc2
    simp [this]
  | sep run d cs out' hne hrun hd ht =>
    cases run with
    | nil => exact absurd rfl hne
    | cons r0 rt =>
      obtain ⟨hr0, -⟩ : r0 = 'a' ∧ rt ++ cs = ['.', 'b'] := by simpa using heq
      subst hr0
      exact absurd (hrun 'a' (by simp)) (by decide)

/-- C8 counterexample: `sanitize_slug` does not collapse non-alphanumeric
characters to separators — it drops them.  On input `"a.b"` the code
produces `"ab"`, while any slug matching the claim's description
(lower-cased, runs of non-alphanumerics collapsed to a separator
character, length-capped) would keep a separator between `a` and `b`
and have three characters. -/
theorem C8_counterexample_slug_drops_specials :
    sanitize_slug "a.b" = "ab" ∧
    ¬ ∃ out : List Char, ClaimSlug "a.b".data out ∧
        (sanitize_slug "a.b").data = out.take 32 := by
  refine ⟨by decide, ?_⟩
  rintro ⟨out, hcs, heq⟩
  have h3 : out.length = 3 := claimSlug_inv_adotb _ out hcs (by decide)
  have hlen := congrArg List.length heq
  rw [List.length_take, h3] at hlen
  have h2 : (sanitize_slug "a.b").data.length = 2 := by decide
  rw [h2] at hlen
  simp at hlen

/-- C8 (amended): the slug is derived from the label (or the command
when no label is given) by keeping ascii alphanumerics lower-cased and
`-`/`_`, turning whitespace into `_`, dropping all other characters,
capping the result at 32 characters, and falling back to `"run"` when
nothing survives; the run identifier combines the start timestamp, that
slug, and the first 8 characters of the generated job identifier as
`run_<timestamp>_<slug>_<id fragment>`. -/
theorem C8_amended_slug_and_run_id :
    (∀ s : String, sanitize_slug s =
      (if s.data.filterMap slugCharSpec = [] then "run"
       else String.mk ((s.data.filterMap slugCharSpec).take 32))) ∧
    (∀ (env : JobEnv) (params : JobStartParams) (fs : FsState)
        (info : JobInfo),
      (job_start env params fs).1 = .ok info →
      info.jobId = env.jobId ∧
      info.runId = "run_" ++ toString env.nowMs ++ "_" ++
        ((params.label.map sanitize_slug).getD (sanitize_slug params.command))
        ++ "_" ++ env.jobId.take 8) := by
  constructor
  · intro s
    unfold sanitize_slug
    rw [slugLoop_eq s.data [] (by decide)]
    simp only [List.nil_append, List.length_nil, Nat.sub_zero]
    by_cases hf : s.data.filterMap slugCharSpec = []
    · simp [hf]
    · rw [if_neg hf]
      have hne : ¬ ((s.data.filterMap slugCharSpec).take 32).isEmpty = true := by
        cases hfm : s.data.filterMap slugCharSpec with
        | nil => exact absurd hfm hf
        | cons x xs =>
          rw [show (32 : Nat) = 31 + 1 from rfl, List.take_succ_cons]
          simp
      rw [if_neg hne]
  · intro env params fs info h
    cases h1 : env.createRunsDirOk <;> cases h2 : env.createRunDirOk <;>
      cases h3 : env.writeMetaOk <;> cases h4 : env.openPtyOk <;>
      cases h5 : env.spawnOk <;> cases h6 : env.cloneReaderOk <;>
      simp_all [job_start]
    subst h
    exact ⟨rfl, rfl⟩

theorem C8_amended_slug_and_run_id_witness :
    (sanitize_slug "Build #1" =
      (if "Build #1".data.filterMap slugCharSpec = [] then "run"
       else String.mk (("Build #1".data.filterMap slugCharSpec).take 32))) ∧
    (JobInfo.runId ⟨"0123456789abcdef", "run_5_echo_hi_01234567",
        "/p/.glia-fab/runs/run_5_echo_hi_01234567"⟩ =
      "run_" ++ toString 5 ++ "_" ++
        ((Option.map sanitize_slug none).getD (sanitize_slug "echo hi")) ++
        "_" ++ "0123456789abcdef".take 8) := by
  refine ⟨C8_amended_slug_and_run_id.1 "Build #1", ?_⟩
  exact (C8_amended_slug_and_run_id.2
    ⟨"0123456789abcdef", 5, true, true, true, true, true, true⟩
    ⟨"/p", "echo hi", none, none⟩ ⟨[], []⟩
    ⟨"0123456789abcdef", "run_5_echo_hi_01234567",
      "/p/.glia-fab/runs/run_5_echo_hi_01234567"⟩ rfl).2

/-- C4 counterexample: when terminal allocation fails in `job_start`,
the call fails but the run directory and `run_meta.json` written
before the allocation attempt remain on disk — partial state is
retained, contradicting the claim. -/
theorem C4_counterexample_partial_state_retained :
    (job_start ⟨"0123456789abcdef", 0, true, true, true, false, true, true⟩
        ⟨"/p", "echo", none, none⟩ ⟨[], []⟩).1 = .error "open pty failed" ∧
    "/p/.glia-fab/runs/run_0_echo_01234567" ∈
      (job_start ⟨"0123456789abcdef", 0, true, true, true, false, true, true⟩
        ⟨"/p", "echo", none, none⟩ ⟨[], []⟩).2.dirs ∧
    ("/p/.glia-fab/runs/run_0_echo_01234567/run_meta.json",
        FileData.runMeta "run_0_echo_01234567" "/p" "echo" none 0 []) ∈
      (job_start ⟨"0123456789abcdef", 0, true, true, true, false, true, true⟩
        ⟨"/p", "echo", none, none⟩ ⟨[], []⟩).2.files := by
  refine ⟨rfl, ?_, ?_⟩ <;> decide

/-- C4 (amended): if `job_start` fails at terminal allocation, process
spawn, or reader cloning — after the run directory and metadata were
created — the call fails, but the runs root, the run directory and
`run_meta.json` are retained on disk (no cleanup), and nothing else
has been written by the failing call. -/
theorem C4_amended_spawn_failure_keeps_run_dir
    (env : JobEnv) (params : JobStartParams) (fs : FsState)
    (h1 : env.createRunsDirOk = true) (h2 : env.createRunDirOk = true)
    (h3 : env.writeMetaOk = true)
    (hfail : env.openPtyOk = false ∨ env.spawnOk = false ∨
      env.cloneReaderOk = false) :
    (∃ msg, (job_start env params fs).1 = .error msg) ∧
    (job_start env params fs).2 =
      { dirs := fs.dirs ++ [runs_dir_for_project params.projectRoot,
          runs_dir_for_project params.projectRoot ++ "/" ++ job_run_id env params],
        files := fs.files ++
          [(runs_dir_for_project params.projectRoot ++ "/" ++
              job_run_id env params ++ "/run_meta.json",
            .runMeta (job_run_id env params) params.projectRoot params.command
              params.label env.nowMs (params.envVars.getD []))] } := by
  rcases hfail with hf | hf | hf <;>
    cases h4 : env.openPtyOk <;> cases h5 : env.spawnOk <;>
    cases h6 : env.cloneReaderOk <;>
    simp_all [job_start, job_run_id]

theorem C4_amended_spawn_failure_keeps_run_dir_witness :
    (∃ msg,
      (job_start ⟨"0123456789abcdef", 0, true, true, true, false, true, true⟩
        ⟨"/p", "echo", none, none⟩ ⟨[], []⟩).1 = .error msg) ∧
    (job_start ⟨"0123456789abcdef", 0, true, true, true, false, true, true⟩
        ⟨"/p", "echo", none, none⟩ ⟨[], []⟩).2 =
      { dirs := ([] : List String) ++
          [runs_dir_for_project "/p",
           runs_dir_for_project "/p" ++ "/" ++
             job_run_id ⟨"0123456789abcdef", 0, true, true, true, false, true, true⟩
               ⟨"/p", "echo", none, none⟩],
        files := ([] : List (String × FileData)) ++
          [(runs_dir_for_project "/p" ++ "/" ++
              job_run_id ⟨"0123456789abcdef", 0, true, true, true, false, true, true⟩
                ⟨"/p", "echo", none, none⟩ ++ "/run_meta.json",
            .runMeta (job_run_id ⟨"0123456789abcdef", 0, true, true, true, false, true, true⟩
                ⟨"/p", "echo", none, none⟩) "/p" "echo" none 0
              ((none : Option (List (String × String))).getD []))] } :=
  C4_amended_spawn_failure_keeps_run_dir
    ⟨"0123456789abcdef", 0, true, true, true, false, true, true⟩
    ⟨"/p", "echo", none, none⟩ ⟨[], []⟩ rfl rfl rfl (Or.inl rfl)

/-- C6 counterexample: the job pump appends and flushes each chunk
before publishing it, so right after the append of the first chunk
(the crash-between-steps point) the transcript on disk holds `"x"`
while nothing has been published — the transcript on disk is then NOT
a prefix of what has been published live; the claimed prefix
direction is inverted. -/
theorem C6_counterexample_disk_not_prefix_of_published :
    job_output_pump [.chunk "x"] true =
      [.append "x", .flushLog, .publishOut "x"] ∧
    diskContent ((job_output_pump [.chunk "x"] true).take 2) = "x" ∧
    publishedContent ((job_output_pump [.chunk "x"] true).take 2) = "" ∧
    ¬ ∃ t : String,
      publishedContent ((job_output_pump [.chunk "x"] true).take 2) =
        diskContent ((job_output_pump [.chunk "x"] true).take 2) ++ t := by
  refine ⟨rfl, rfl, rfl, ?_⟩
  rintro ⟨t, ht⟩
  have hlen := congrArg String.length ht
  rw [String.length_append] at hlen
  have h1 : (publishedContent ((job_output_pump [.chunk "x"] true).take 2)).length = 0 := by decide
  have h2 : (diskContent ((job_output_pump [.chunk "x"] true).take 2)).length = 1 := by decide
  omega

/-- With the log file open, disk content always extends published
content: at every point of the job pump's action trace, what has been
published is a prefix of what is on disk. -/
theorem pump_disk_extends_published (reads : List ReadEv) :
    ∀ n : Nat, ∃ t : String,
      diskContent ((job_output_pump reads true).take n) =
        publishedContent ((job_output_pump reads true).take n) ++ t := by
  induction reads with
  | nil =>
    intro n
    exact ⟨"", by simp [job_output_pump, diskContent, publishedContent]⟩
  | cons ev rest ih =>
    cases ev with
    | eof =>
      intro n
      exact ⟨"", by simp [job_output_pump, diskContent, publishedContent]⟩
    | readErr =>
      intro n
      exact ⟨"", by simp [job_output_pump, diskContent, publishedContent]⟩
    | chunk d =>
      intro n
      match n with
      | 0 => exact ⟨"", by simp [diskContent, publishedContent]⟩
      | 1 =>
        refine ⟨d, ?_⟩
        have htake : (job_output_pump (.chunk d :: rest) true).take 1 =
            [.append d] := rfl
        rw [htake]
        simp [diskContent, publishedContent]
      | 2 =>
        refine ⟨d, ?_⟩
        have htake : (job_output_pump (.chunk d :: rest) true).take 2 =
            [.append d, .flushLog] := rfl
        rw [htake]
        simp [diskContent, publishedContent]
      | (k + 3) =>
        obtain ⟨t, ht⟩ := ih k
        refine ⟨t, ?_⟩
        have htake : (job_output_pump (.chunk d :: rest) true).take (k + 3) =
            .append d :: .flushLog :: .publishOut d ::
              (job_output_pump rest true).take k := rfl
        rw [htake]
        simp only [diskContent, publishedContent]
        rw [ht, String.append_assoc]

/-- C6 (amended): in the job Output Pump each chunk's transcript append
and flush strictly precede the publication of that chunk (the trace is
a sequence of `append`/`flush`/`publish` blocks, one per chunk read),
so what has been published live is always a prefix of the transcript on
disk — not the other way around. -/
theorem C6_amended_append_then_publish_per_chunk :
    ∀ reads : List ReadEv,
      job_output_pump reads true =
        (pumpChunks reads).flatMap
          (fun d => [.append d, .flushLog, .publishOut d]) ∧
      ∀ n : Nat, ∃ t : String,
        diskContent ((job_output_pump reads true).take n) =
          publishedContent ((job_output_pump reads true).take n) ++ t := by
  intro reads
  refine ⟨?_, pump_disk_extends_published reads⟩
  induction reads with
  | nil => rfl
  | cons ev rest ih =>
    cases ev with
    | eof => rfl
    | readErr => rfl
    | chunk d => simp [job_output_pump, pumpChunks, ih]

/-- The job poll loop ignores everything after its first error. -/
theorem job_exit_loop_replicate (n : Nat) (rest : List PollRes) :
    job_exit_loop (List.replicate n .stillRunning ++ .pollErr :: rest) =
      some none := by
  induction n with
  | zero => rfl
  | succ k ihk => simpa [List.replicate_succ, job_exit_loop] using ihk

/-- The session poll loop ignores everything after its first error. -/
theorem sess_exit_loop_replicate (n : Nat) (srest : List SessPoll) :
    sess_exit_loop
      (List.replicate n (.poll .stillRunning) ++ .poll .pollErr :: srest) =
      some none := by
  induction n with
  | zero => rfl
  | succ k ihk => simpa [List.replicate_succ, sess_exit_loop] using ihk

/-- C7: if the watcher's poll of the child handle errors — after any
number of still-running polls, and whatever would come after — the
poll loop stops with an absent exit code and the watcher still
finalizes: the job watcher writes the result record (null exit code)
and publishes the exit event, and the session watcher removes the
session from the registry and publishes the exit event. -/
theorem C7_poll_error_still_finalizes :
    ∀ (n : Nat) (rest : List PollRes) (srest : List SessPoll)
      (id endedMs : Nat),
      job_exit_loop (List.replicate n .stillRunning ++ .pollErr :: rest) =
        some none ∧
      job_exit_watcher (List.replicate n .stillRunning ++ .pollErr :: rest)
          endedMs =
        [.writeResult none endedMs, .publishJobExit none] ∧
      sess_exit_loop
          (List.replicate n (.poll .stillRunning) ++ .poll .pollErr :: srest) =
        some none ∧
      sess_exit_watcher id
          (List.replicate n (.poll .stillRunning) ++ .poll .pollErr :: srest)
          true =
        [.removeSession id, .publishPtyExit id none] := by
  intro n rest srest id endedMs
  refine ⟨job_exit_loop_replicate n rest, ?_, sess_exit_loop_replicate n srest, ?_⟩
  · simp [job_exit_watcher, job_exit_loop_replicate n rest]
  · simp [sess_exit_watcher, sess_exit_loop_replicate n srest]

/-- The phase-vs-used invariant holds initially. -/
theorem initInv : PhaseUsedInv initSys := fun _ h => absurd rfl h

theorem rankRemove_le_one (p : Phase) : rankRemove p ≤ 1 := by
  cases p <;> simp [rankRemove]

theorem rankPublish_le_one (p : Phase) : rankPublish p ≤ 1 := by
  cases p <;> simp [rankPublish]

/-- Count bookkeeping along an execution: the registry mutex never
becomes poisoned, the phase-vs-used invariant is preserved, and for
every id the number of removals (respectively exit publications) in
the trace equals the rank difference of its watcher phase. -/
theorem steps_counts {s : Sys} {tr : List Act} {s' : Sys} (h : Steps s tr s') :
    s.poisoned = false → PhaseUsedInv s →
    s'.poisoned = false ∧ PhaseUsedInv s' ∧
    (∀ id, removesFor id tr + rankRemove (s.phase id) =
      rankRemove (s'.phase id)) ∧
    (∀ id, publishesFor id tr + rankPublish (s.phase id) =
      rankPublish (s'.phase id)) := by
  induction h with
  | refl s =>
    intro hp hi
    exact ⟨hp, hi, fun id => by simp [removesFor],
      fun id => by simp [publishesFor]⟩
  | @cons s m s' a tr hstep hrest ih =>
    intro hp hi
    cases hstep with
    | createA id sess hfresh =>
      have hSid : s.phase id = .absentPh := by
        by_contra hne
        exact hfresh (hi id hne)
      have hi1 : PhaseUsedInv
          { registry := (id, sess) :: s.registry,
            phase := setPhase s.phase id .polling, used := id :: s.used,
            poisoned := s.poisoned } := by
        intro j hj
        by_cases hji : j = id
        · subst hji
          exact List.mem_cons_self j s.used
        · simp only [setPhase] at hj
          rw [if_neg hji] at hj
          exact List.mem_cons_of_mem _ (hi j hj)
      obtain ⟨hp', hi', hR, hP⟩ := ih hp hi1
      refine ⟨hp', hi', fun j => ?_, fun j => ?_⟩
      · have hj := hR j
        by_cases hji : j = id
        · subst hji
          simpa [removesFor, List.countP_cons, setPhase, hSid, rankRemove]
            using hj
        · simpa [removesFor, List.countP_cons, setPhase, hji] using hj
      · have hj := hP j
        by_cases hji : j = id
        · subst hji
          simpa [publishesFor, List.countP_cons, setPhase, hSid, rankPublish]
            using hj
        · simpa [publishesFor, List.countP_cons, setPhase, hji] using hj
    | writeA id =>
      obtain ⟨hp', hi', hR, hP⟩ := ih hp hi
      exact ⟨hp', hi',
        fun j => by simpa [removesFor, List.countP_cons] using hR j,
        fun j => by simpa [publishesFor, List.countP_cons] using hP j⟩
    | resizeA id =>
      obtain ⟨hp', hi', hR, hP⟩ := ih hp hi
      exact ⟨hp', hi',
        fun j => by simpa [removesFor, List.countP_cons] using hR j,
        fun j => by simpa [publishesFor, List.countP_cons] using hP j⟩
    | listA =>
      obtain ⟨hp', hi', hR, hP⟩ := ih hp hi
      exact ⟨hp', hi',
        fun j => by simpa [removesFor, List.countP_cons] using hR j,
        fun j => by simpa [publishesFor, List.countP_cons] using hP j⟩
    | killSignal id hpresent =>
      obtain ⟨hp', hi', hR, hP⟩ := ih hp hi
      exact ⟨hp', hi',
        fun j => by simpa [removesFor, List.countP_cons] using hR j,
        fun j => by simpa [publishesFor, List.countP_cons] using hP j⟩
    | killNoop =>
      obtain ⟨hp', hi', hR, hP⟩ := ih hp hi
      exact ⟨hp', hi',
        fun j => by simpa [removesFor, List.countP_cons] using hR j,
        fun j => by simpa [publishesFor, List.countP_cons] using hP j⟩
    | pollRunningA id hphase =>
      obtain ⟨hp', hi', hR, hP⟩ := ih hp hi
      exact ⟨hp', hi',
        fun j => by simpa [removesFor, List.countP_cons] using hR j,
        fun j => by simpa [publishesFor, List.countP_cons] using hP j⟩
    | pollEndA id ec hphase =>
      have hi1 : PhaseUsedInv
          { s with phase := setPhase s.phase id (.exitedPh ec) } := by
        intro j hj
        by_cases hji : j = id
        · subst hji
          exact hi j (by rw [hphase]; simp)
        · simp only [setPhase] at hj
          rw [if_neg hji] at hj
          exact hi j hj
      obtain ⟨hp', hi', hR, hP⟩ := ih hp hi1
      refine ⟨hp', hi', fun j => ?_, fun j => ?_⟩
      · have hj := hR j
        by_cases hji : j = id
        · subst hji
          simpa [removesFor, List.countP_cons, setPhase, hphase, rankRemove]
            using hj
        · simpa [removesFor, List.countP_cons, setPhase, hji] using hj
      · have hj := hP j
        by_cases hji : j = id
        · subst hji
          simpa [publishesFor, List.countP_cons, setPhase, hphase, rankPublish]
            using hj
        · simpa [publishesFor, List.countP_cons, setPhase, hji] using hj
    | removeA id ec hphase hpz =>
      have hi1 : PhaseUsedInv
          { s with registry := s.registry.filter (fun e => e.1 ≠ id),
                   phase := setPhase s.phase id (.removedPh ec) } := by
        intro j hj
        by_cases hji : j = id
        · subst hji
          exact hi j (by rw [hphase]; simp)
        · simp only [setPhase] at hj
          rw [if_neg hji] at hj
          exact hi j hj
      obtain ⟨hp', hi', hR, hP⟩ := ih hp hi1
      refine ⟨hp', hi', fun j => ?_, fun j => ?_⟩
      · have hj := hR j
        by_cases hji : j = id
        · subst hji
          simpa [removesFor, List.countP_cons, setPhase, hphase, rankRemove]
            using hj
        · simpa [removesFor, List.countP_cons, setPhase, hji, Ne.symm hji]
            using hj
      · have hj := hP j
        by_cases hji : j = id
        · subst hji
          simpa [publishesFor, List.countP_cons, setPhase, hphase, rankPublish]
            using hj
        · simpa [publishesFor, List.countP_cons, setPhase, hji] using hj
    | removeSkippedA id ec hphase hpz =>
      rw [hp] at hpz
      exact absurd hpz (by decide)
    | publishExitA id ec hphase =>
      have hi1 : PhaseUsedInv
          { s with phase := setPhase s.phase id .donePh } := by
        intro j hj
        by_cases hji : j = id
        · subst hji
          exact hi j (by rw [hphase]; simp)
        · simp only [setPhase] at hj
          rw [if_neg hji] at hj
          exact hi j hj
      obtain ⟨hp', hi', hR, hP⟩ := ih hp hi1
      refine ⟨hp', hi', fun j => ?_, fun j => ?_⟩
      · have hj := hR j
        by_cases hji : j = id
        · subst hji
          simpa [removesFor, List.countP_cons, setPhase, hphase, rankRemove]
            using hj
        · simpa [removesFor, List.countP_cons, setPhase, hji] using hj
      · have hj := hP j
        by_cases hji : j = id
        · subst hji
          simpa [publishesFor, List.countP_cons, setPhase, hphase, rankPublish]
            using hj
        · simpa [publishesFor, List.countP_cons, setPhase, hji, Ne.symm hji]
            using hj

/-- An execution of an appended trace splits at the seam. -/
theorem steps_append {s s' : Sys} (t1 t2 : List Act)
    (h : Steps s (t1 ++ t2) s') : ∃ m, Steps s t1 m ∧ Steps m t2 s' := by
  induction t1 generalizing s with
  | nil => exact ⟨s, Steps.refl s, h⟩
  | cons a t1' ih =>
    cases h with
    | cons hstep hrest =>
      obtain ⟨m, h1, h2⟩ := ih hrest
      exact ⟨m, Steps.cons hstep h1, h2⟩

/-- A positive removal count exhibits a removal action in the trace. -/
theorem removesFor_pos_mem (id : Nat) (tr : List Act)
    (h : 0 < removesFor id tr) : ∃ ec, Act.removeA id ec ∈ tr := by
  obtain ⟨a, ha, hpa⟩ := List.countP_pos_iff.mp h
  cases a with
  | removeA i ec =>
    have hieq : i = id := by simpa using hpa
    subst hieq
    exact ⟨ec, ha⟩
  | createA i sess => simp at hpa
  | writeA i => simp at hpa
  | resizeA i => simp at hpa
  | killSignal i => simp at hpa
  | killNoop => simp at hpa
  | listA => simp at hpa
  | pollRunningA i => simp at hpa
  | pollEndA i ec => simp at hpa
  | removeSkippedA i ec => simp at hpa
  | publishExitA i ec => simp at hpa

/-- Registry lookup through an insertion. -/
theorem lookupSession_cons (k : Nat) (v : PtySession) (reg : Registry)
    (id : Nat) :
    lookupSession ((k, v) :: reg) id =
      if k == id then some v else lookupSession reg id := by
  cases hk : (k == id) <;> simp [lookupSession, List.find?_cons, hk]

/-- Removing one key leaves lookups of other keys unchanged. -/
theorem lookupSession_filter_ne (reg : Registry) (i id : Nat) (h : id ≠ i) :
    lookupSession (reg.filter (fun e => e.1 ≠ i)) id =
      lookupSession reg id := by
  induction reg with
  | nil => rfl
  | cons e rest ih =>
    obtain ⟨k, v⟩ := e
    rw [List.filter_cons]
    split
    · rw [lookupSession_cons, lookupSession_cons, ih]
    · next hcond =>
        have hk : k = i := by simpa using hcond
        have hkid : (k == id) = false := by
          rw [beq_eq_false_iff_ne]
          intro hc
          exact h (hc ▸ hk)
        rw [ih, lookupSession_cons, hkid]
        simp

/-- C2: along every reachable execution each session's registry entry is
removed at most once; the only step that can take an entry out of the
registry is the exit watcher's removal step, which is enabled only
after its poll loop has detected exit (phase `exitedPh`); and the kill
command leaves the registry untouched — it only signals the child of a
registered session. -/
theorem C2_removal_once_only_by_watcher :
    (∀ (tr : List Act) (s : Sys), Reach tr s →
      ∀ id, removesFor id tr ≤ 1) ∧
    (∀ (s : Sys) (a : Act) (s' : Sys), Step s a s' → ∀ id,
      (lookupSession s.registry id).isSome →
      (lookupSession s'.registry id).isNone →
      ∃ ec, a = .removeA id ec ∧ s.phase id = .exitedPh ec) ∧
    (∀ (s : Sys) (id : Nat) (s' : Sys), Step s (.killSignal id) s' →
      s'.registry = s.registry ∧ (lookupSession s.registry id).isSome) := by
  refine ⟨?_, ?_, ?_⟩
  · intro tr s h id
    obtain ⟨-, -, hR, -⟩ := steps_counts h rfl initInv
    have h0 : rankRemove (initSys.phase id) = 0 := rfl
    have h1 := hR id
    rw [h0] at h1
    have h2 := rankRemove_le_one (s.phase id)
    omega
  · intro s a s' hstep id hsome hnone
    cases hstep with
    | createA nid sess hfresh =>
      exfalso
      have hnone' : (lookupSession ((nid, sess) :: s.registry) id).isNone :=
        hnone
      rw [lookupSession_cons] at hnone'
      cases hk : (nid == id) with
      | true =>
        rw [hk] at hnone'
        simp at hnone'
      | false =>
        rw [hk] at hnone'
        simp only [Bool.false_eq_true, if_false] at hnone'
        rw [Option.isNone_iff_eq_none] at hnone'
        rw [hnone'] at hsome
        simp at hsome
    | writeA i =>
      rw [Option.isNone_iff_eq_none] at hnone
      rw [hnone] at hsome
      simp at hsome
    | resizeA i =>
      rw [Option.isNone_iff_eq_none] at hnone
      rw [hnone] at hsome
      simp at hsome
    | listA =>
      rw [Option.isNone_iff_eq_none] at hnone
      rw [hnone] at hsome
      simp at hsome
    | killSignal i hpresent =>
      rw [Option.isNone_iff_eq_none] at hnone
      rw [hnone] at hsome
      simp at hsome
    | killNoop =>
      rw [Option.isNone_iff_eq_none] at hnone
      rw [hnone] at hsome
      simp at hsome
    | pollRunningA i hphase =>
      rw [Option.isNone_iff_eq_none] at hnone
      rw [hnone] at hsome
      simp at hsome
    | pollEndA i ec hphase =>
      rw [Option.isNone_iff_eq_none] at hnone
      rw [hnone] at hsome
      simp at hsome
    | removeSkippedA i ec hphase hpz =>
      rw [Option.isNone_iff_eq_none] at hnone
      rw [hnone] at hsome
      simp at hsome
    | publishExitA i ec hphase =>
      rw [Option.isNone_iff_eq_none] at hnone
      rw [hnone] at hsome
      simp at hsome
    | removeA i ec hphase hpz =>
      by_cases hi : i = id
      · subst hi
        exact ⟨ec, rfl, hphase⟩
      · exfalso
        have hnone' :
            (lookupSession (s.registry.filter (fun e => e.1 ≠ i)) id).isNone :=
          hnone
        rw [lookupSession_filter_ne s.registry i id
          (fun hc => hi hc.symm)] at hnone'
        rw [Option.isNone_iff_eq_none] at hnone'
        rw [hnone'] at hsome
        simp at hsome
  · intro s id s' hstep
    cases hstep with
    | killSignal i hpresent => exact ⟨rfl, hpresent⟩

/-- A concrete full session lifecycle is executable in the model. -/
theorem reachEx : ∃ s : Sys, Reach traceEx s :=
  ⟨_, Steps.cons (Step.createA initSys 0 sessEx (by simp [initSys]))
      (Steps.cons (Step.pollEndA _ 0 none rfl)
        (Steps.cons (Step.removeA _ 0 none rfl rfl)
          (Steps.cons (Step.publishExitA _ 0 none rfl) (Steps.refl _))))⟩

theorem C2_removal_once_only_by_watcher_witness :
    removesFor 0 traceEx ≤ 1 ∧
    (∃ ec, Act.removeA 0 (some 7) = .removeA 0 ec ∧
      sysExited.phase 0 = .exitedPh ec) ∧
    (sysExited.registry = sysExited.registry ∧
      (lookupSession sysExited.registry 0).isSome) := by
  obtain ⟨s, hs⟩ := reachEx
  refine ⟨C2_removal_once_only_by_watcher.1 traceEx s hs 0, ?_, ?_⟩
  · exact C2_removal_once_only_by_watcher.2.1 sysExited (.removeA 0 (some 7))
      _ (Step.removeA sysExited 0 (some 7) rfl rfl) 0 rfl rfl
  · exact C2_removal_once_only_by_watcher.2.2 sysExited 0 sysExited
      (Step.killSignal sysExited 0 rfl)

/-- C3: along every reachable execution, the `pty_exit` event for a
session is published at most once, and every publication is preceded in
the trace by that session's registry removal — the watcher removes the
entry, then publishes. -/
theorem C3_publish_once_after_removal :
    (∀ (tr : List Act) (s : Sys), Reach tr s →
      ∀ id, publishesFor id tr ≤ 1) ∧
    (∀ (tr : List Act) (s : Sys), Reach tr s →
      ∀ (t1 : List Act) (id : Nat) (ec : Option Nat) (t2 : List Act),
        tr = t1 ++ .publishExitA id ec :: t2 →
        ∃ ec', Act.removeA id ec' ∈ t1) := by
  constructor
  · intro tr s h id
    obtain ⟨-, -, -, hP⟩ := steps_counts h rfl initInv
    have h0 : rankPublish (initSys.phase id) = 0 := rfl
    have h1 := hP id
    rw [h0] at h1
    have h2 := rankPublish_le_one (s.phase id)
    omega
  · intro tr s h t1 id ec t2 heq
    subst heq
    obtain ⟨m, h1, h2⟩ := steps_append t1 (Act.publishExitA id ec :: t2) h
    cases h2 with
    | cons hstep hrest =>
      cases hstep with
      | publishExitA i e hphase =>
        obtain ⟨-, -, hR, -⟩ := steps_counts h1 rfl initInv
        have hcount := hR id
        have h0 : rankRemove (initSys.phase id) = 0 := rfl
        rw [h0, hphase] at hcount
        have hpos : 0 < removesFor id t1 := by
          simp [rankRemove] at hcount
          omega
        exact removesFor_pos_mem id t1 hpos

theorem C3_publish_once_after_removal_witness :
    publishesFor 0 traceEx ≤ 1 ∧
    ∃ ec', Act.removeA 0 ec' ∈
      [Act.createA 0 sessEx, .pollEndA 0 none, .removeA 0 none] := by
  obtain ⟨s, hs⟩ := reachEx
  refine ⟨C3_publish_once_after_removal.1 traceEx s hs 0, ?_⟩
  exact C3_publish_once_after_removal.2 traceEx s hs
    [.createA 0 sessEx, .pollEndA 0 none, .removeA 0 none] 0 none [] rfl
